import Mathlib

/-!
# Scene graph verification

A shallow embedding of the scene-graph core of the `rust-wgpu-msm` renderer
(`src/scenegraph.rs`, with supporting data types from `src/model.rs` and
`src/light.rs`), together with proofs of the specified properties.

Modelling conventions:
* `f32`/`f64` scalars are embedded as `ℚ`; `glam::Mat4` becomes a rational
  4×4 matrix (`Matrix (Fin 4) (Fin 4) ℚ`), multiplied in the same
  `a * b` order as glam.
* A GPU buffer is modelled by its contents (the slice passed to
  `create_buffer_init`); GPU-only handles (texture views, samplers, the
  shadow map, the `wgpu::Device`) carry no observable data and are dropped
  from the embedding.
* Rust functions that can panic (`unwrap`, slice indexing) return `Option`;
  `none` models the panic.
* `find_child_mut` returns `&mut Node` in Rust; the embedding returns the
  *path* (list of child indices from the root) of the node that the borrow
  points at, and mutation through the borrow becomes `updateAtPath`.
-/

/-- The 4×4 `f32` matrix type `glam::Mat4`, embedded over `ℚ`. -/
abbrev Mat4 := Matrix (Fin 4) (Fin 4) ℚ

/-- Mirrors `Mat4::IDENTITY`. -/
def Mat4.IDENTITY : Mat4 := 1

/-- Mirrors `glam::Vec3` (used transiently by `RenderNode::set_matrix`). -/
structure Vec3 where
  x : ℚ
  y : ℚ
  z : ℚ
  deriving DecidableEq

/-- Mirrors `glam::Mat4::transform_point3`: multiply the point, extended with
`w = 1`, by the matrix, and truncate (no perspective divide). -/
def Mat4.transform_point3 (m : Mat4) (v : Vec3) : Vec3 :=
  { x := m 0 0 * v.x + m 0 1 * v.y + m 0 2 * v.z + m 0 3
    y := m 1 0 * v.x + m 1 1 * v.y + m 1 2 * v.z + m 1 3
    z := m 2 0 * v.x + m 2 1 * v.y + m 2 2 * v.z + m 2 3 }

/-- Mirrors `model::Vertex`: `pos: [f32; 3]`, `tex_coords: [f32; 2]`,
`normal: [f32; 3]`. The three-element arrays are embedded as `Vec3`, the
two-element array as a pair. -/
structure Vertex where
  pos : Vec3
  tex_coords : ℚ × ℚ
  normal : Vec3
  deriving DecidableEq

/-- Mirrors `tobj::Material` (the fields `MaterialUniform::from_tobj_material`
reads): optional ambient/diffuse/specular colors, shininess and dissolve. -/
structure TobjMaterial where
  name : String
  ambient : Option Vec3
  diffuse : Option Vec3
  specular : Option Vec3
  shininess : Option ℚ
  dissolve : Option ℚ

/-- Mirrors `model::MaterialUniform` (the packed uniform written into the
material buffer). -/
structure MaterialUniform where
  ambient : Vec3 × ℚ
  diffuse : Vec3 × ℚ
  specular : Vec3 × ℚ
  shininess : ℚ
  dissolve : ℚ

/-- Mirrors `MaterialUniform::from_tobj_material`. -/
def MaterialUniform.from_tobj_material (material : TobjMaterial) : MaterialUniform :=
  let ambient := material.ambient.getD ⟨0, 0, 0⟩
  let diffuse := material.diffuse.getD ⟨0, 0, 0⟩
  let specular := material.specular.getD ⟨0, 0, 0⟩
  { ambient := (ambient, 0)
    diffuse := (diffuse, 0)
    specular := (specular, 0)
    shininess := material.shininess.getD 1
    dissolve := material.dissolve.getD 1 }

/-- Mirrors `model::Material`; the diffuse texture is a GPU handle, so only
its presence is kept. -/
structure Material where
  name : String
  diffuse_texture : Option Unit
  material : TobjMaterial

/-- The bind group built by `Material::create_bind_group`; of its three
entries only the material buffer holds CPU-visible data (the texture view and
sampler are GPU handles). -/
structure MaterialBindGroup where
  material_buffer : MaterialUniform

/-- Mirrors `Material::create_bind_group`: `Some` bind group (over the
material-uniform buffer) when a diffuse texture is present, else `None`. -/
def Material.create_bind_group (m : Material) : Option MaterialBindGroup :=
  let material_uniform := MaterialUniform.from_tobj_material m.material
  match m.diffuse_texture with
  | some _ => some { material_buffer := material_uniform }
  | none => none

/-- Mirrors `model::Mesh` (`num_elements` is redundant with
`indices.length` for meshes made by `load_model`, but is a stored field). -/
structure Mesh where
  name : String
  vertices : List Vertex
  indices : List ℕ
  num_elements : ℕ
  material : ℕ

/-- Mirrors `model::Model`. -/
structure Model where
  meshes : List Mesh
  materials : List Material

/-- Mirrors `wgpu::Color` (four `f64` channels). -/
structure Color where
  r : ℚ
  g : ℚ
  b : ℚ
  a : ℚ

/-- Mirrors `light::Light`; `target_view` is a GPU texture view and is
dropped from the embedding. -/
structure Light where
  pos : Vec3
  color : Color

/-- Mirrors `light::LightUniform`. The `view_proj` field of the Rust struct
is `Light::calculate_matrix` output (a perspective/look-at product built from
transcendental functions); it is not representable over `ℚ` and no claim
depends on it, so it is left out of the embedding. -/
structure LightUniform where
  pos : Vec3 × ℚ
  color : Color
  model_mat : Mat4

/-- Mirrors `LightUniform::from_light` (minus the `view_proj` field, see
`LightUniform`). -/
def LightUniform.from_light (light : Light) (model : Mat4) : LightUniform :=
  { pos := (light.pos, 1)
    color := light.color
    model_mat := model }

/-- The layout built by `LightUniform::get_bind_group_layout`. Its
CPU-visible parameters are the binding-array count of entry 0
(`NonZeroU32::new(light_count)`, hence `none` when the count is zero) and the
uniform-vs-storage choice. -/
structure LightBindGroupLayout where
  light_count : Option ℕ
  supports_storage_resources : Bool

/-- Mirrors `LightUniform::get_bind_group_layout`. -/
def LightUniform.get_bind_group_layout (light_count : ℕ)
    (supports_storage_resources : Bool) : LightBindGroupLayout :=
  { light_count := if light_count = 0 then none else some light_count
    supports_storage_resources := supports_storage_resources }

/-- The bind group built by `SceneGraph::update_light_bind_group`: entry 0 is
the light buffer (modelled by its contents); entries 1 and 2 are the shadow
map view and sampler, which are GPU handles. -/
structure LightBindGroup where
  light_buffer : List LightUniform

/-- Mirrors `scenegraph::NodeData`. -/
structure NodeData where
  name : String
  matrix : Mat4

/-- Mirrors `NodeData::new`. -/
def NodeData.new (name : String) : NodeData :=
  { name := name, matrix := Mat4.IDENTITY }

/-- Mirrors `NodeData::set_matrix`. -/
def NodeData.set_matrix (d : NodeData) (matrix : Mat4) : NodeData :=
  { d with matrix := matrix }

/-- Mirrors `scenegraph::RenderNode`. The two `wgpu::Buffer` fields are
modelled by their contents. -/
structure RenderNode where
  node : NodeData
  vertex_buffer : List Vertex
  index_buffer : List ℕ
  num_elements : ℕ
  material_bind_group : Option MaterialBindGroup
  vertices : List Vertex

/-- Mirrors `scenegraph::LightNode`. -/
structure LightNode where
  node : NodeData
  light : Light

/-- Mirrors `RenderNode::new`: both GPU buffers are initialized from the
argument slices, and a CPU-side copy of the vertices is stored. -/
def RenderNode.new (name : String) (vertices : List Vertex) (indices : List ℕ)
    (material_bind_group : Option MaterialBindGroup) : RenderNode :=
  { node := NodeData.new name
    vertex_buffer := vertices
    index_buffer := indices
    num_elements := indices.length
    material_bind_group := material_bind_group
    vertices := vertices }

/-- Mirrors `RenderNode::set_matrix`: store the matrix in the node data,
apply it to the stored (untransformed) vertex list, and recreate the vertex
buffer from the result. -/
def RenderNode.set_matrix (r : RenderNode) (matrix : Mat4) : RenderNode :=
  let transformed_vertices : List Vertex :=
    r.vertices.map (fun vertex =>
      let pos := matrix.transform_point3 ⟨vertex.pos.x, vertex.pos.y, vertex.pos.z⟩
      { vertex with pos := ⟨pos.x, pos.y, pos.z⟩ })
  { r with
    node := r.node.set_matrix matrix
    vertex_buffer := transformed_vertices }

/-- Mirrors `RenderNode::new_with_matrix`. -/
def RenderNode.new_with_matrix (name : String) (vertices : List Vertex)
    (indices : List ℕ) (material_bind_group : Option MaterialBindGroup)
    (matrix : Mat4) : RenderNode :=
  (RenderNode.new name vertices indices material_bind_group).set_matrix matrix

/-- Mirrors `scenegraph::Node`. `GroupNode` carries its `NodeData` and
children inline (the Rust `GroupNode` struct holds exactly these two
fields). -/
inductive Node where
  | GroupNode : NodeData → List Node → Node
  | RenderNode : RenderNode → Node
  | LightNode : LightNode → Node

/-- Name of a node, of whichever variant (each variant checks
`*.node.name` in the search loops). -/
def Node.name : Node → String
  | .GroupNode d _ => d.name
  | .RenderNode r => r.node.name
  | .LightNode l => l.node.name

/-- Whether a node is the `GroupNode` variant. -/
def Node.isGroup : Node → Bool
  | .GroupNode _ _ => true
  | _ => false

/-- Mirrors `GroupNode::new`. -/
def GroupNode.new (name : String) : Node :=
  .GroupNode (NodeData.new name) []

mutual
/-- Structural size of a node, used as a termination measure for the
stack-based traversals. -/
def Node.size : Node → ℕ
  | .GroupNode _ cs => 1 + Node.sizeList cs
  | _ => 1
/-- Total size of a list of nodes. -/
def Node.sizeList : List Node → ℕ
  | [] => 0
  | c :: cs => Node.size c + Node.sizeList cs
end

theorem Node.sizeList_eq (cs : List Node) :
    Node.sizeList cs = (cs.map Node.size).sum := by
  induction cs with
  | nil => simp [Node.sizeList]
  | cons c cs ih => simp [Node.sizeList, ih]

theorem Node.size_pos (n : Node) : 0 < n.size := by
  cases n <;> simp [Node.size]

theorem Node.sizeList_append (xs ys : List Node) :
    Node.sizeList (xs ++ ys) = Node.sizeList xs + Node.sizeList ys := by
  simp [Node.sizeList_eq]

theorem Node.sizeList_reverse (xs : List Node) :
    Node.sizeList xs.reverse = Node.sizeList xs := by
  simp [Node.sizeList_eq, List.sum_reverse]

theorem sizeList_stack_pop (n : Node) (stack : List Node) :
    Node.sizeList stack < Node.sizeList (n :: stack) := by
  have := Node.size_pos n
  simp [Node.sizeList]
  omega

theorem sizeList_stack_group (d : NodeData) (cs stack : List Node) :
    Node.sizeList (cs.reverse ++ stack) < Node.sizeList (Node.GroupNode d cs :: stack) := by
  simp [Node.sizeList_append, Node.sizeList_reverse, Node.sizeList, Node.size]

/-! ## Claims C4 and C10: `RenderNode::set_matrix` -/

/-- C4: calling `set_matrix` twice in a row with the same matrix produces
byte-identical GPU vertex-buffer contents both times — indeed the whole
render node is identical — because the transform is reapplied to the stored
original untransformed vertex list, not to the previously transformed
state. -/
theorem set_matrix_idempotent (r : RenderNode) (m : Mat4) :
    ((r.set_matrix m).set_matrix m).vertex_buffer = (r.set_matrix m).vertex_buffer ∧
    (r.set_matrix m).set_matrix m = r.set_matrix m := by
  constructor <;> simp [RenderNode.set_matrix, NodeData.set_matrix]

/-- C10: `set_matrix` changes only the local matrix and the vertex-buffer
contents; the vertices written to the new buffer keep their `tex_coords` and
`normal` fields, and the stored untransformed vertex list, index buffer,
element count, material bind group and name are unchanged. -/
theorem set_matrix_frame (r : RenderNode) (m : Mat4) :
    (r.set_matrix m).node.matrix = m ∧
    (r.set_matrix m).node.name = r.node.name ∧
    (r.set_matrix m).vertices = r.vertices ∧
    (r.set_matrix m).index_buffer = r.index_buffer ∧
    (r.set_matrix m).num_elements = r.num_elements ∧
    (r.set_matrix m).material_bind_group = r.material_bind_group ∧
    (r.set_matrix m).vertex_buffer.map Vertex.tex_coords =
      r.vertices.map Vertex.tex_coords ∧
    (r.set_matrix m).vertex_buffer.map Vertex.normal =
      r.vertices.map Vertex.normal ∧
    (r.set_matrix m).vertex_buffer =
      r.vertices.map (fun vertex =>
        { vertex with pos := m.transform_point3 vertex.pos }) := by
  refine ⟨rfl, rfl, rfl, rfl, rfl, rfl, ?_, ?_, ?_⟩ <;>
    simp [RenderNode.set_matrix, Function.comp_def]

/-! ## The scene graph and its operations -/

/-- Mirrors `scenegraph::SceneGraph`. The shadow map is a GPU resource
(texture, view, sampler) and is dropped from the embedding; the
`on_frame_update_callback` box (`Box<dyn Fn(&SceneGraph)>`) is an opaque
observer, so only its presence is kept. -/
structure SceneGraph where
  root : Node
  light_bind_group : Option LightBindGroup
  light_bind_group_layout : Option LightBindGroupLayout
  lights_dirty : Bool
  supports_storage_resources : Bool
  on_frame_update_callback : Option Unit

/-- Mirrors `SceneGraph::new`: a `GroupNode` root named `"root"`, no light
bind group or layout, lights not dirty, no callback. -/
def SceneGraph.new (supports_storage_resources : Bool) : SceneGraph :=
  { root := GroupNode.new "root"
    light_bind_group := none
    light_bind_group_layout := none
    lights_dirty := false
    supports_storage_resources := supports_storage_resources
    on_frame_update_callback := none }

/-- The loop of `SceneGraph::find_child_deep`. The Rust code pops a node off
the stack, returns it if its name matches, and (for groups) pushes the
children in order, so that the last child is popped first; pushing
`c1 .. cn` onto a `Vec` and popping from the end is `cs.reverse ++ stack`
for a head-is-top list. -/
def find_child_deep_go : List Node → String → Option Node
  | [], _ => none
  | n :: stack, name =>
    match n with
    | .GroupNode d cs =>
      if d.name = name then some n else find_child_deep_go (cs.reverse ++ stack) name
    | .RenderNode r =>
      if r.node.name = name then some n else find_child_deep_go stack name
    | .LightNode l =>
      if l.node.name = name then some n else find_child_deep_go stack name
termination_by stack => Node.sizeList stack
decreasing_by
  all_goals first
    | apply sizeList_stack_group
    | apply sizeList_stack_pop

/-- Mirrors `SceneGraph::find_child_deep`: the stack starts holding just the
root. -/
def SceneGraph.find_child_deep (g : SceneGraph) (name : String) : Option Node :=
  find_child_deep_go [g.root] name

/-- Mirrors `SceneGraph::find_child`. -/
def SceneGraph.find_child (g : SceneGraph) (name : String) : Option Node :=
  g.find_child_deep name

/-- Index of the first child (scanning in order, starting at index `i`)
whose name matches, of whichever variant: the inner `for child in ...` loop
of `find_child_mut_deep` returns at the first name match, checking the name
the same way for all three variants. -/
def firstMatchIdx : List Node → String → ℕ → Option ℕ
  | [], _, _ => none
  | c :: cs, name, i =>
    if c.name = name then some i else firstMatchIdx cs name (i + 1)

/-- The group children of `cs` (with their paths `p ++ [i]`), in scanning
order: the children that the `find_child_mut_deep` loop pushes onto its
stack when no name in `cs` matches. -/
def groupFrames : List Node → List ℕ → ℕ → List (Node × List ℕ)
  | [], _, _ => []
  | c :: cs, p, i =>
    match c with
    | .GroupNode _ _ => (c, p ++ [i]) :: groupFrames cs p (i + 1)
    | _ => groupFrames cs p (i + 1)

theorem groupFrames_sizeList (cs : List Node) (p : List ℕ) (i : ℕ) :
    Node.sizeList ((groupFrames cs p i).map Prod.fst) ≤ Node.sizeList cs := by
  induction cs generalizing p i with
  | nil => simp [groupFrames, Node.sizeList]
  | cons c cs ih =>
    have h := ih p (i + 1)
    have hs := Node.size_pos c
    cases c <;> simp [groupFrames, Node.sizeList] <;> omega

theorem sizeList_mut_stack_pop (f : Node × List ℕ) (stack : List (Node × List ℕ)) :
    Node.sizeList (stack.map Prod.fst) < Node.sizeList ((f :: stack).map Prod.fst) := by
  simp only [List.map_cons]
  exact sizeList_stack_pop _ _

theorem sizeList_mut_stack_group (d : NodeData) (cs : List Node) (p : List ℕ)
    (stack : List (Node × List ℕ)) :
    Node.sizeList (((groupFrames cs p 0).reverse ++ stack).map Prod.fst) <
      Node.sizeList (((Node.GroupNode d cs, p) :: stack).map Prod.fst) := by
  have h := groupFrames_sizeList cs p 0
  have h2 : Node.sizeList (((groupFrames cs p 0).reverse).map Prod.fst) =
      Node.sizeList ((groupFrames cs p 0).map Prod.fst) := by
    simp [List.map_reverse, Node.sizeList_reverse]
  simp only [List.map_append, List.map_cons, Node.sizeList_append, Node.sizeList,
    Node.size] at h2 ⊢
  omega

/-- The loop of `SceneGraph::find_child_mut_deep`, returning the *path* of
the node the Rust function returns a mutable borrow of. Each stack frame is
a node paired with its path. Popping a `GroupNode`, the loop scans its
children in order and returns at the first name match (of any variant);
if none matches it has pushed every group child, so they are popped in
reverse order. Non-group frames fall through the `_ => {}` arm. -/
def find_child_mut_go : List (Node × List ℕ) → String → Option (List ℕ)
  | [], _ => none
  | (n, p) :: stack, name =>
    match n with
    | .GroupNode _ cs =>
      match firstMatchIdx cs name 0 with
      | some i => some (p ++ [i])
      | none => find_child_mut_go ((groupFrames cs p 0).reverse ++ stack) name
    | _ => find_child_mut_go stack name
termination_by stack => Node.sizeList (stack.map Prod.fst)
decreasing_by
  all_goals first
    | apply sizeList_mut_stack_group
    | apply sizeList_mut_stack_pop

/-- Mirrors `SceneGraph::find_child_mut_deep` (as a path, see the module
docstring): the stack starts holding the root, whose path is `[]`. -/
def SceneGraph.find_child_mut_deep (g : SceneGraph) (name : String) :
    Option (List ℕ) :=
  find_child_mut_go [(g.root, [])] name

/-- Mirrors `SceneGraph::find_child_mut`: `None` resolves to the root
(path `[]`), `Some name` runs the deep search. -/
def SceneGraph.find_child_mut (g : SceneGraph) (name : Option String) :
    Option (List ℕ) :=
  match name with
  | some name => g.find_child_mut_deep name
  | none => some []

/-- Replace the `i`-th element of a child list by `f` of it (models writing
through the mutable borrow of that child). -/
def modifyChild : List Node → ℕ → (Node → Node) → List Node
  | [], _, _ => []
  | c :: cs, 0, f => f c :: cs
  | c :: cs, i + 1, f => c :: modifyChild cs i f

/-- Apply `f` to the node a path points at (models writing through the
mutable borrow returned by `find_child_mut`). A path that leaves the tree
changes nothing; the searches only produce valid paths. -/
def updateAtPath : Node → List ℕ → (Node → Node) → Node
  | n, [], f => f n
  | .GroupNode d cs, i :: p, f => .GroupNode d (modifyChild cs i (fun c => updateAtPath c p f))
  | n, _ :: _, _ => n

/-- Read the node a path points at. -/
def nodeAtPath : Node → List ℕ → Option Node
  | n, [] => some n
  | .GroupNode _ cs, i :: p =>
    match cs[i]? with
    | some c => nodeAtPath c p
    | none => none
  | _, _ :: _ => none

/-- The body of `SceneGraph::add_child` applied to the found node:
`if let Node::GroupNode(ref mut group) = parent_node { group.children.push(child); }`
— a group gets the child appended, any other variant is left unchanged
(the `if let` silently does nothing). -/
def appendChild (child : Node) : Node → Node
  | .GroupNode d cs => .GroupNode d (cs ++ [child])
  | n => n

/-- Mirrors `SceneGraph::add_child`. `find_child_mut(parent).unwrap()`
panics (`none`) when the lookup fails; otherwise the child is pushed if the
found node is a group. -/
def SceneGraph.add_child (g : SceneGraph) (parent : Option String) (child : Node) :
    Option SceneGraph :=
  match g.find_child_mut parent with
  | none => none
  | some p => some { g with root := updateAtPath g.root p (appendChild child) }

/-- Mirrors `SceneGraph::add_render_node`. -/
def SceneGraph.add_render_node (g : SceneGraph) (parent : Option String)
    (name : String) (vertices : List Vertex) (indices : List ℕ) (matrix : Mat4) :
    Option SceneGraph :=
  g.add_child parent
    (.RenderNode (RenderNode.new_with_matrix name vertices indices none matrix))

/-- One loop iteration of `SceneGraph::add_model_node` for a single mesh:
look up the mesh's material (`model.materials[mesh.material]` panics —
`none` — when out of bounds), create its bind group, and build the render
node named `format!("{}-{}", name, mesh.name)` carrying the mesh's vertices
and indices with the matrix applied. -/
def meshRenderNode (name : String) (materials : List Material) (matrix : Mat4)
    (mesh : Mesh) : Option Node :=
  (materials[mesh.material]?).map (fun material =>
    Node.RenderNode (RenderNode.new_with_matrix (name ++ "-" ++ mesh.name)
      mesh.vertices mesh.indices material.create_bind_group matrix))

/-- Mirrors `SceneGraph::add_model_node`: for each mesh of the model, in
order, build its render node and `add_child` it under `parent`. -/
def SceneGraph.add_model_node (g : SceneGraph) (parent : Option String)
    (name : String) (model : Model) (matrix : Mat4) : Option SceneGraph :=
  model.meshes.foldl
    (fun acc mesh => acc.bind (fun g =>
      (meshRenderNode name model.materials matrix mesh).bind (fun child =>
        g.add_child parent child)))
    (some g)

/-! ## Iterators -/

theorem sizeList_iter_stack_pop (f : Node × Mat4) (stack : List (Node × Mat4)) :
    Node.sizeList (stack.map Prod.fst) < Node.sizeList ((f :: stack).map Prod.fst) := by
  simp only [List.map_cons]
  exact sizeList_stack_pop _ _

theorem sizeList_iter_stack_group (d : NodeData) (cs : List Node) (m pm : Mat4)
    (stack : List (Node × Mat4)) :
    Node.sizeList (((cs.map (fun c => (c, m))).reverse ++ stack).map Prod.fst) <
      Node.sizeList (((Node.GroupNode d cs, pm) :: stack).map Prod.fst) := by
  have h : ((cs.map (fun c => (c, m))).reverse).map Prod.fst = cs.reverse := by
    simp [List.map_reverse, Function.comp_def]
  simp only [List.map_append, List.map_cons, h, Node.sizeList_append,
    Node.sizeList_reverse, Node.sizeList, Node.size]
  omega

/-- The loop of `SceneGraphRenderNodeIterator::next`, run to exhaustion: the
list of all items the iterator yields before returning `None`. Each stack
frame pairs a node with the accumulated parent matrix. A group composes
`parent_matrix * group.node.matrix` and pushes every child with it (last
child on top); a render node yields `(node, parent_matrix * node.matrix)`;
a light node is skipped. -/
def runRender : List (Node × Mat4) → List (RenderNode × Mat4)
  | [] => []
  | (n, parent_matrix) :: stack =>
    match n with
    | .GroupNode d cs =>
      runRender ((cs.map (fun c => (c, parent_matrix * d.matrix))).reverse ++ stack)
    | .RenderNode r => (r, parent_matrix * r.node.matrix) :: runRender stack
    | .LightNode _ => runRender stack
termination_by stack => Node.sizeList (stack.map Prod.fst)
decreasing_by
  all_goals first
    | apply sizeList_iter_stack_group
    | apply sizeList_iter_stack_pop

/-- The loop of `SceneGraphLightNodeIterator::next`, run to exhaustion;
identical to `runRender` with the roles of render and light nodes
swapped. -/
def runLight : List (Node × Mat4) → List (LightNode × Mat4)
  | [] => []
  | (n, parent_matrix) :: stack =>
    match n with
    | .GroupNode d cs =>
      runLight ((cs.map (fun c => (c, parent_matrix * d.matrix))).reverse ++ stack)
    | .RenderNode _ => runLight stack
    | .LightNode l => (l, parent_matrix * l.node.matrix) :: runLight stack
termination_by stack => Node.sizeList (stack.map Prod.fst)
decreasing_by
  all_goals first
    | apply sizeList_iter_stack_group
    | apply sizeList_iter_stack_pop

/-- All items of `SceneGraphRenderNodeIterator::new(g)`: the stack starts
with `(root, Mat4::IDENTITY)`. -/
def SceneGraph.renderNodeItems (g : SceneGraph) : List (RenderNode × Mat4) :=
  runRender [(g.root, Mat4.IDENTITY)]

/-- All items of `SceneGraphLightNodeIterator::new(g)`. -/
def SceneGraph.lightNodeItems (g : SceneGraph) : List (LightNode × Mat4) :=
  runLight [(g.root, Mat4.IDENTITY)]

/-- Mirrors `SceneGraph::get_light_nodes` (collecting the light iterator). -/
def SceneGraph.get_light_nodes (g : SceneGraph) : List (LightNode × Mat4) :=
  g.lightNodeItems

/-- Mirrors `SceneGraph::get_light_uniforms`: one packed uniform per
yielded light, in iterator order. -/
def SceneGraph.get_light_uniforms (g : SceneGraph) : List LightUniform :=
  g.get_light_nodes.map (fun light => LightUniform.from_light light.1.light light.2)

/-! ## Light bind group management and the frame hook -/

/-- Mirrors `SceneGraph::update_light_bind_group_layout`, including the
fact that the `light_count == 0` branch assigns `None` and is then
unconditionally overwritten by `Some(...)` on the next statement. -/
def SceneGraph.update_light_bind_group_layout (g : SceneGraph) : SceneGraph :=
  let light_count := g.get_light_nodes.length
  let g1 := if light_count = 0 then { g with light_bind_group_layout := none } else g
  { g1 with
    light_bind_group_layout :=
      some (LightUniform.get_bind_group_layout light_count g1.supports_storage_resources) }

/-- Mirrors `SceneGraph::update_light_bind_group`: mark lights dirty, pack
the uniforms into a fresh buffer, rebuild the layout, and, if a layout is
present, build the bind group over the new buffer. -/
def SceneGraph.update_light_bind_group (g : SceneGraph) : SceneGraph :=
  let g1 := { g with lights_dirty := true }
  let light_buffer : List LightUniform := g1.get_light_uniforms
  let g2 := g1.update_light_bind_group_layout
  match g2.light_bind_group_layout with
  | some _ => { g2 with light_bind_group := some { light_buffer := light_buffer } }
  | none => g2

/-- Mirrors `SceneGraph::add_light_node`: attach the light node, then
rebuild the light bind group. -/
def SceneGraph.add_light_node (g : SceneGraph) (parent : Option String)
    (name : String) (light : Light) : Option SceneGraph :=
  (g.add_child parent (.LightNode { node := NodeData.new name, light := light })).map
    SceneGraph.update_light_bind_group

/-- Mirrors `SceneGraph::set_callback`. -/
def SceneGraph.set_callback (g : SceneGraph) (callback : Unit) : SceneGraph :=
  { g with on_frame_update_callback := some callback }

/-- Mirrors `SceneGraph::on_frame_update`: clear the dirty flag, then invoke
the registered callback, if any, with a shared reference to the graph. The
second component records the invocation: `some g'` is the argument the
callback observes, `none` means no callback ran. -/
def SceneGraph.on_frame_update (g : SceneGraph) : SceneGraph × Option SceneGraph :=
  let g1 := { g with lights_dirty := false }
  match g1.on_frame_update_callback with
  | some _ => (g1, some g1)
  | none => (g1, none)

/-! ## Recursive characterizations of the stack traversals

The stack machines above are literal translations of the Rust loops. The
following structurally recursive functions describe the same traversals;
the equivalence lemmas connecting the two are proved below and the claims
are stated against whichever form reads most naturally.
-/

/-- Simultaneous induction over a node and a child list. -/
theorem Node.myInduction {P : Node → Prop} {Q : List Node → Prop}
    (hg : ∀ d cs, Q cs → P (.GroupNode d cs))
    (hr : ∀ r, P (.RenderNode r))
    (hl : ∀ l, P (.LightNode l))
    (hnil : Q [])
    (hcons : ∀ c cs, P c → Q cs → Q (c :: cs)) :
    (∀ n, P n) ∧ (∀ cs, Q cs) := by
  have hn : ∀ n, P n := fun n => @Node.rec P Q hg hr hl hnil hcons n
  refine ⟨hn, ?_⟩
  intro cs
  induction cs with
  | nil => exact hnil
  | cons c cs ih => exact hcons c cs (hn c) ih

mutual
/-- Items the render iterator yields from a subtree, given the accumulated
parent matrix: a group contributes its children's items under the composed
matrix, visited last-added first; a render leaf yields itself with the world
matrix; a light leaf contributes nothing. -/
def renderItems : Node → Mat4 → List (RenderNode × Mat4)
  | .GroupNode d cs, parent_matrix => renderItemsChildren cs (parent_matrix * d.matrix)
  | .RenderNode r, parent_matrix => [(r, parent_matrix * r.node.matrix)]
  | .LightNode _, _ => []
termination_by n _ => 2 * n.size
decreasing_by
  simp [Node.size]; omega
/-- Items of a child list, later children first (LIFO pop order). -/
def renderItemsChildren : List Node → Mat4 → List (RenderNode × Mat4)
  | [], _ => []
  | c :: cs, m => renderItemsChildren cs m ++ renderItems c m
termination_by cs _ => 2 * Node.sizeList cs + 1
decreasing_by
  all_goals have := Node.size_pos c
  all_goals simp [Node.sizeList]
  all_goals omega
end

mutual
/-- Light-iterator analogue of `renderItems`. -/
def lightItems : Node → Mat4 → List (LightNode × Mat4)
  | .GroupNode d cs, parent_matrix => lightItemsChildren cs (parent_matrix * d.matrix)
  | .RenderNode _, _ => []
  | .LightNode l, parent_matrix => [(l, parent_matrix * l.node.matrix)]
termination_by n _ => 2 * n.size
decreasing_by
  simp [Node.size]; omega
/-- Light items of a child list, later children first. -/
def lightItemsChildren : List Node → Mat4 → List (LightNode × Mat4)
  | [], _ => []
  | c :: cs, m => lightItemsChildren cs m ++ lightItems c m
termination_by cs _ => 2 * Node.sizeList cs + 1
decreasing_by
  all_goals have := Node.size_pos c
  all_goals simp [Node.sizeList]
  all_goals omega
end

mutual
/-- Number of render leaves in a subtree. -/
def countRenderNodes : Node → ℕ
  | .GroupNode _ cs => countRenderNodesList cs
  | .RenderNode _ => 1
  | .LightNode _ => 0
termination_by n => 2 * n.size
decreasing_by
  simp [Node.size]; omega
/-- Number of render leaves under a child list. -/
def countRenderNodesList : List Node → ℕ
  | [] => 0
  | c :: cs => countRenderNodes c + countRenderNodesList cs
termination_by cs => 2 * Node.sizeList cs + 1
decreasing_by
  all_goals have := Node.size_pos c
  all_goals simp [Node.sizeList]
  all_goals omega
end

mutual
/-- Number of light leaves in a subtree. -/
def countLightNodes : Node → ℕ
  | .GroupNode _ cs => countLightNodesList cs
  | .RenderNode _ => 0
  | .LightNode _ => 1
termination_by n => 2 * n.size
decreasing_by
  simp [Node.size]; omega
/-- Number of light leaves under a child list. -/
def countLightNodesList : List Node → ℕ
  | [] => 0
  | c :: cs => countLightNodes c + countLightNodesList cs
termination_by cs => 2 * Node.sizeList cs + 1
decreasing_by
  all_goals have := Node.size_pos c
  all_goals simp [Node.sizeList]
  all_goals omega
end

mutual
/-- The order `find_child_deep` visits nodes in: the node itself, then the
subtrees of its children, later children first (the stack pops the
last-pushed child first). -/
def dfsOrder : Node → List Node
  | .GroupNode d cs => .GroupNode d cs :: dfsOrderChildren cs
  | n => [n]
termination_by n => 2 * n.size
decreasing_by
  simp [Node.size]; omega
/-- Visit order of a child list, later children first. -/
def dfsOrderChildren : List Node → List Node
  | [] => []
  | c :: cs => dfsOrderChildren cs ++ dfsOrder c
termination_by cs => 2 * Node.sizeList cs + 1
decreasing_by
  all_goals have := Node.size_pos c
  all_goals simp [Node.sizeList]
  all_goals omega
end

/-! ## Equivalence of the iterator machines with their recursive forms -/

/-- Items contributed by a whole iterator stack. -/
def stackRenderItems : List (Node × Mat4) → List (RenderNode × Mat4)
  | [] => []
  | f :: s => renderItems f.1 f.2 ++ stackRenderItems s

theorem stackRenderItems_append (s t : List (Node × Mat4)) :
    stackRenderItems (s ++ t) = stackRenderItems s ++ stackRenderItems t := by
  induction s with
  | nil => rfl
  | cons f s ih => simp [stackRenderItems, ih]

theorem stackRenderItems_revmap (cs : List Node) (m : Mat4) :
    stackRenderItems ((cs.map (fun c => (c, m))).reverse) = renderItemsChildren cs m := by
  induction cs with
  | nil => simp [stackRenderItems, renderItemsChildren]
  | cons c cs ih =>
    simp [stackRenderItems, stackRenderItems_append, ih, renderItemsChildren]

theorem runRender_eq (s : List (Node × Mat4)) : runRender s = stackRenderItems s := by
  induction s using runRender.induct with
  | case1 => simp [runRender, stackRenderItems]
  | case2 pm stack d cs ih =>
    rw [runRender, ih, stackRenderItems_append, stackRenderItems_revmap]
    simp [stackRenderItems, renderItems]
  | case3 pm stack r ih => simp [runRender, ih, stackRenderItems, renderItems]
  | case4 pm stack l ih => simp [runRender, ih, stackRenderItems, renderItems]

/-- Light items contributed by a whole iterator stack. -/
def stackLightItems : List (Node × Mat4) → List (LightNode × Mat4)
  | [] => []
  | f :: s => lightItems f.1 f.2 ++ stackLightItems s

theorem stackLightItems_append (s t : List (Node × Mat4)) :
    stackLightItems (s ++ t) = stackLightItems s ++ stackLightItems t := by
  induction s with
  | nil => rfl
  | cons f s ih => simp [stackLightItems, ih]

theorem stackLightItems_revmap (cs : List Node) (m : Mat4) :
    stackLightItems ((cs.map (fun c => (c, m))).reverse) = lightItemsChildren cs m := by
  induction cs with
  | nil => simp [stackLightItems, lightItemsChildren]
  | cons c cs ih =>
    simp [stackLightItems, stackLightItems_append, ih, lightItemsChildren]

theorem runLight_eq (s : List (Node × Mat4)) : runLight s = stackLightItems s := by
  induction s using runLight.induct with
  | case1 => simp [runLight, stackLightItems]
  | case2 pm stack d cs ih =>
    rw [runLight, ih, stackLightItems_append, stackLightItems_revmap]
    simp [stackLightItems, lightItems]
  | case3 pm stack r ih => simp [runLight, ih, stackLightItems, lightItems]
  | case4 pm stack l ih => simp [runLight, ih, stackLightItems, lightItems]

theorem renderNodeItems_eq (g : SceneGraph) :
    g.renderNodeItems = renderItems g.root Mat4.IDENTITY := by
  simp [SceneGraph.renderNodeItems, runRender_eq, stackRenderItems]

theorem lightNodeItems_eq (g : SceneGraph) :
    g.lightNodeItems = lightItems g.root Mat4.IDENTITY := by
  simp [SceneGraph.lightNodeItems, runLight_eq, stackLightItems]

theorem renderItems_length_all :
    (∀ n : Node, ∀ pm, (renderItems n pm).length = countRenderNodes n) ∧
    (∀ cs : List Node, ∀ m, (renderItemsChildren cs m).length = countRenderNodesList cs) := by
  refine Node.myInduction ?_ ?_ ?_ ?_ ?_
  · intro d cs ih pm
    simp [renderItems, countRenderNodes, ih]
  · intro r pm
    simp [renderItems, countRenderNodes]
  · intro l pm
    simp [renderItems, countRenderNodes]
  · intro m
    simp [renderItemsChildren, countRenderNodesList]
  · intro c cs ihc ihl m
    simp [renderItemsChildren, countRenderNodesList, ihc, ihl]
    omega

theorem lightItems_length_all :
    (∀ n : Node, ∀ pm, (lightItems n pm).length = countLightNodes n) ∧
    (∀ cs : List Node, ∀ m, (lightItemsChildren cs m).length = countLightNodesList cs) := by
  refine Node.myInduction ?_ ?_ ?_ ?_ ?_
  · intro d cs ih pm
    simp [lightItems, countLightNodes, ih]
  · intro r pm
    simp [lightItems, countLightNodes]
  · intro l pm
    simp [lightItems, countLightNodes]
  · intro m
    simp [lightItemsChildren, countLightNodesList]
  · intro c cs ihc ihl m
    simp [lightItemsChildren, countLightNodesList, ihc, ihl]
    omega

theorem renderItemsChildren_append (cs : List Node) (c : Node) (m : Mat4) :
    renderItemsChildren (cs ++ [c]) m = renderItems c m ++ renderItemsChildren cs m := by
  induction cs with
  | nil => simp [renderItemsChildren]
  | cons x cs ih => simp [renderItemsChildren, ih]

/-! ## Claim C5: iterator exhaustion, order, determinism -/

/-- C5: over a graph with `N` render leaves the render iterator yields
exactly `N` items and then returns `None` (its run collects into a finite
list of that length); the traversal is the recursive order that visits a
group's children last-added first (LIFO), so a child appended to a group is
enumerated before its older siblings; and a second iterator constructed
over the same unmodified tree yields the same items in the same order. -/
theorem render_iterator_spec (g : SceneGraph) :
    g.renderNodeItems.length = countRenderNodes g.root ∧
    g.renderNodeItems = renderItems g.root Mat4.IDENTITY ∧
    (∀ d cs c pm, renderItems (.GroupNode d (cs ++ [c])) pm =
      renderItems c (pm * d.matrix) ++ renderItems (.GroupNode d cs) pm) ∧
    (∀ g2 : SceneGraph, g2.root = g.root → g2.renderNodeItems = g.renderNodeItems) := by
  refine ⟨?_, renderNodeItems_eq g, ?_, ?_⟩
  · rw [renderNodeItems_eq]
    exact renderItems_length_all.1 g.root Mat4.IDENTITY
  · intro d cs c pm
    simp [renderItems, renderItemsChildren_append]
  · intro g2 h
    rw [renderNodeItems_eq, renderNodeItems_eq, h]

/-- Witness for `render_iterator_spec`: a two-leaf graph, with the
determinism clause discharged at the graph itself. -/
theorem render_iterator_spec_witness :
    ({ SceneGraph.new true with
        root := .GroupNode (NodeData.new "root")
          [.RenderNode (RenderNode.new "a" [] [] none),
           .RenderNode (RenderNode.new "b" [] [] none)] } : SceneGraph).renderNodeItems.length =
      countRenderNodes ({ SceneGraph.new true with
        root := .GroupNode (NodeData.new "root")
          [.RenderNode (RenderNode.new "a" [] [] none),
           .RenderNode (RenderNode.new "b" [] [] none)] } : SceneGraph).root ∧
    ({ SceneGraph.new true with
        root := .GroupNode (NodeData.new "root")
          [.RenderNode (RenderNode.new "a" [] [] none),
           .RenderNode (RenderNode.new "b" [] [] none)] } : SceneGraph).renderNodeItems =
      ({ SceneGraph.new true with
        root := .GroupNode (NodeData.new "root")
          [.RenderNode (RenderNode.new "a" [] [] none),
           .RenderNode (RenderNode.new "b" [] [] none)] } : SceneGraph).renderNodeItems :=
  ⟨(render_iterator_spec _).1, (render_iterator_spec _).2.2.2 _ rfl⟩

/-! ## Claim C1: world transforms compose root-to-leaf -/

/-- A chain of nested single-child groups with the given names and local
matrices, ending at `leaf`. -/
def chainNode : List (String × Mat4) → Node → Node
  | [], leaf => leaf
  | (nm, m) :: ms, leaf => .GroupNode { name := nm, matrix := m } [chainNode ms leaf]

theorem renderItems_chain (ms : List (String × Mat4)) (leaf : Node) (pm : Mat4) :
    renderItems (chainNode ms leaf) pm =
      renderItems leaf (pm * (ms.map Prod.snd).prod) := by
  induction ms generalizing pm with
  | nil => simp [chainNode]
  | cons nm ms ih =>
    simp [chainNode, renderItems, renderItemsChildren, ih, mul_assoc]

theorem lightItems_chain (ms : List (String × Mat4)) (leaf : Node) (pm : Mat4) :
    lightItems (chainNode ms leaf) pm =
      lightItems leaf (pm * (ms.map Prod.snd).prod) := by
  induction ms generalizing pm with
  | nil => simp [chainNode]
  | cons nm ms ih =>
    simp [chainNode, lightItems, lightItemsChildren, ih, mul_assoc]

/-- C1: on a graph whose tree is a chain of nested groups with local
matrices `M1` (at the root), `M2`, …, ending in a render (resp. light) leaf
with local matrix `Mleaf`, the render (resp. light) iterator yields exactly
that leaf, paired with the left-to-right product `M1 * M2 * ⋯ * Mleaf`
(the accumulation starts from the identity at the root). -/
theorem world_transform_composition (g : SceneGraph) (ms : List (String × Mat4))
    (r : RenderNode) (l : LightNode) :
    (g.root = chainNode ms (.RenderNode r) →
      g.renderNodeItems = [(r, (ms.map Prod.snd).prod * r.node.matrix)]) ∧
    (g.root = chainNode ms (.LightNode l) →
      g.lightNodeItems = [(l, (ms.map Prod.snd).prod * l.node.matrix)]) := by
  constructor
  · intro h
    rw [renderNodeItems_eq, h, renderItems_chain]
    simp [renderItems, Mat4.IDENTITY]
  · intro h
    rw [lightNodeItems_eq, h, lightItems_chain]
    simp [lightItems, Mat4.IDENTITY]

/-- Witness for `world_transform_composition`: a two-group chain over a
render leaf, evaluated concretely. -/
theorem world_transform_composition_witness :
    ({ SceneGraph.new true with
        root := chainNode [("root", Mat4.IDENTITY), ("g", Mat4.IDENTITY)]
          (.RenderNode (RenderNode.new "leaf" [] [] none)) } : SceneGraph).renderNodeItems =
      [(RenderNode.new "leaf" [] [] none,
        ([("root", Mat4.IDENTITY), ("g", Mat4.IDENTITY)].map Prod.snd).prod *
          (RenderNode.new "leaf" [] [] none).node.matrix)] :=
  (world_transform_composition _ [("root", Mat4.IDENTITY), ("g", Mat4.IDENTITY)] _
    { node := NodeData.new "sun",
      light := { pos := ⟨0, 25, 30⟩, color := ⟨1, 1, 1, 1⟩ } }).1 rfl

/-! ## Claim C6: `find_child` is a whole-tree DFS in documented order -/

/-- Nodes visited by the whole `find_child_deep` stack, in visit order. -/
def stackDfs : List Node → List Node
  | [] => []
  | n :: s => dfsOrder n ++ stackDfs s

theorem stackDfs_append (s t : List Node) :
    stackDfs (s ++ t) = stackDfs s ++ stackDfs t := by
  induction s with
  | nil => rfl
  | cons n s ih => simp [stackDfs, ih]

theorem stackDfs_reverse (cs : List Node) :
    stackDfs cs.reverse = dfsOrderChildren cs := by
  induction cs with
  | nil => simp [stackDfs, dfsOrderChildren]
  | cons c cs ih => simp [stackDfs, stackDfs_append, ih, dfsOrderChildren]

theorem find_child_deep_go_eq (s : List Node) (name : String) :
    find_child_deep_go s name = (stackDfs s).find? (fun n => n.name == name) := by
  induction s, name using find_child_deep_go.induct with
  | case1 x => simp [find_child_deep_go, stackDfs]
  | case2 stack d cs =>
    simp only [stackDfs, dfsOrder, List.cons_append]
    rw [List.find?_cons_of_pos _ (by simp [Node.name])]
    simp [find_child_deep_go]
  | case3 stack name d cs h ih =>
    simp only [stackDfs, dfsOrder, List.cons_append]
    rw [List.find?_cons_of_neg _ (by simp [Node.name, h]),
      ← stackDfs_reverse, ← stackDfs_append, ← ih]
    simp [find_child_deep_go, h]
  | case4 stack r =>
    simp only [stackDfs, dfsOrder, List.cons_append]
    rw [List.find?_cons_of_pos _ (by simp [Node.name])]
    simp [find_child_deep_go]
  | case5 stack name r h ih =>
    simp only [stackDfs, dfsOrder, List.cons_append]
    rw [List.find?_cons_of_neg _ (by simp [Node.name, h])]
    simpa [find_child_deep_go, h] using ih
  | case6 stack l =>
    simp only [stackDfs, dfsOrder, List.cons_append]
    rw [List.find?_cons_of_pos _ (by simp [Node.name])]
    simp [find_child_deep_go]
  | case7 stack name l h ih =>
    simp only [stackDfs, dfsOrder, List.cons_append]
    rw [List.find?_cons_of_neg _ (by simp [Node.name, h])]
    simpa [find_child_deep_go, h] using ih

/-- C6: `find_child` performs a depth-first search of the whole tree — it
returns the first node, in the documented stack-based LIFO visit order
(`dfsOrder`: a node before its subtrees, later children first), whose name
matches; with duplicate names this picks the node visited first, and the
result is a function of the tree alone (deterministic). -/
theorem find_child_spec (g : SceneGraph) (name : String) :
    g.find_child name = (dfsOrder g.root).find? (fun n => n.name == name) ∧
    (∀ g2 : SceneGraph, g2.root = g.root → g2.find_child name = g.find_child name) := by
  constructor
  · rw [SceneGraph.find_child, SceneGraph.find_child_deep, find_child_deep_go_eq]
    simp [stackDfs]
  · intro g2 h
    simp [SceneGraph.find_child, SceneGraph.find_child_deep, h]

/-- Witness for `find_child_spec`: two same-named sibling leaves; the
equality is discharged on that concrete graph. -/
theorem find_child_spec_witness :
    ({ SceneGraph.new true with
        root := .GroupNode (NodeData.new "root")
          [.RenderNode (RenderNode.new "dup" [] [] none),
           .RenderNode (RenderNode.new "dup" [] [0] none)] } : SceneGraph).find_child "dup" =
      (dfsOrder ({ SceneGraph.new true with
        root := .GroupNode (NodeData.new "root")
          [.RenderNode (RenderNode.new "dup" [] [] none),
           .RenderNode (RenderNode.new "dup" [] [0] none)] } : SceneGraph).root).find?
        (fun n => n.name == "dup") ∧
    ({ SceneGraph.new true with
        root := .GroupNode (NodeData.new "root")
          [.RenderNode (RenderNode.new "dup" [] [] none),
           .RenderNode (RenderNode.new "dup" [] [0] none)] } : SceneGraph).find_child "dup" =
      ({ SceneGraph.new true with
        root := .GroupNode (NodeData.new "root")
          [.RenderNode (RenderNode.new "dup" [] [] none),
           .RenderNode (RenderNode.new "dup" [] [0] none)] } : SceneGraph).find_child "dup" :=
  ⟨(find_child_spec _ "dup").1, (find_child_spec _ "dup").2 _ rfl⟩

/-! ## Claim C9: the mutable deep search never matches the root -/

theorem find_child_mut_go_shape (stack : List (Node × List ℕ)) (name : String) :
    ∀ p : List ℕ, find_child_mut_go stack name = some p → ∃ q i, p = q ++ [i] := by
  induction stack, name using find_child_mut_go.induct with
  | case1 x =>
    intro p h
    simp [find_child_mut_go] at h
  | case2 p0 stack name d cs i hm =>
    intro p h
    simp only [find_child_mut_go, hm] at h
    exact ⟨p0, i, by injection h with h; exact h.symm⟩
  | case3 p0 stack name d cs hm ih =>
    intro p h
    simp only [find_child_mut_go, hm] at h
    exact ih p h
  | case4 n p0 stack name hn ih =>
    intro p h
    cases n with
    | GroupNode d cs => exact (hn d cs rfl).elim
    | RenderNode r =>
      simp only [find_child_mut_go] at h
      exact ih p h
    | LightNode l =>
      simp only [find_child_mut_go] at h
      exact ih p h

/-- C9: on a freshly constructed graph the immutable lookup finds the root
by its name `"root"`, but the mutable lookup for the same name returns
`None`: the mutable deep search only ever returns a child of some group
(its result path always ends with a child index), so it can never match the
root node itself. -/
theorem root_lookup_asymmetry (b : Bool) :
    (SceneGraph.new b).find_child "root" = some (SceneGraph.new b).root ∧
    (SceneGraph.new b).find_child_mut (some "root") = none ∧
    (∀ (t : Node) (name : String) (p : List ℕ),
      find_child_mut_go [(t, [])] name = some p → p ≠ []) := by
  refine ⟨?_, ?_, ?_⟩
  · simp [SceneGraph.find_child, SceneGraph.find_child_deep, find_child_deep_go,
      SceneGraph.new, GroupNode.new, NodeData.new]
  · simp [SceneGraph.find_child_mut, SceneGraph.find_child_mut_deep, find_child_mut_go,
      SceneGraph.new, GroupNode.new, NodeData.new, firstMatchIdx, groupFrames]
  · intro t name p h
    obtain ⟨q, i, rfl⟩ := find_child_mut_go_shape [(t, [])] name p h
    simp

/-- Witness for `root_lookup_asymmetry`: the deep-search clause applied to a
group with one group child named `"x"`, found at path `[0]`. -/
theorem root_lookup_asymmetry_witness :
    (SceneGraph.new true).find_child_mut (some "root") = none ∧ ([0] : List ℕ) ≠ [] :=
  ⟨(root_lookup_asymmetry true).2.1,
   (root_lookup_asymmetry true).2.2
     (.GroupNode (NodeData.new "root") [GroupNode.new "x"]) "x" [0]
     (by simp [find_child_mut_go, GroupNode.new, NodeData.new, firstMatchIdx, Node.name])⟩

/-! ## Claim C8: the frame hook -/

/-- C8: `on_frame_update` sets `lights_dirty` to `false`; if a callback was
registered via `set_callback` it is then invoked with a read-only reference
to the graph (the second component records the observed graph), and if no
callback is registered nothing else happens. -/
theorem on_frame_update_spec (g : SceneGraph) :
    (g.on_frame_update).1 = { g with lights_dirty := false } ∧
    (g.on_frame_update).1.lights_dirty = false ∧
    (g.on_frame_update).2 =
      (g.on_frame_update_callback).map (fun _ => (g.on_frame_update).1) ∧
    ((g.set_callback ()).on_frame_update).2 =
      some ((g.set_callback ()).on_frame_update).1 ∧
    (g.on_frame_update_callback = none →
      g.on_frame_update = ({ g with lights_dirty := false }, none)) := by
  refine ⟨?_, ?_, ?_, ?_, ?_⟩ <;>
    cases hc : g.on_frame_update_callback <;>
      simp [SceneGraph.on_frame_update, SceneGraph.set_callback, hc]

/-- Witness for `on_frame_update_spec`: the no-callback clause discharged on
a fresh graph. -/
theorem on_frame_update_spec_witness :
    (SceneGraph.new true).on_frame_update =
      ({ SceneGraph.new true with lights_dirty := false }, none) :=
  (on_frame_update_spec (SceneGraph.new true)).2.2.2.2 rfl

/-! ## Claim C2: zero lights do not clear the bind group (code bug)

`SceneGraph::update_light_bind_group_layout` assigns `None` when the light
count is zero, but the assignment is dead: the next statement overwrites the
field with `Some(...)` unconditionally, and `update_light_bind_group` then
finds a layout present and builds a bind group as well. So after
`update_light_bind_group` on a graph with no `LightNode`s, both fields are
`Some`, contradicting the documented zero-light behavior.
-/

/-- C2 (failing evaluation): a freshly constructed graph has no light
nodes, yet running `update_light_bind_group` leaves BOTH the layout and the
bind group present (`Some`), not `None` as the specification requires: the
layout is the zero-count layout, and the bind group holds an empty light
buffer. -/
theorem zero_lights_bind_group_not_cleared :
    (SceneGraph.new true).get_light_nodes = [] ∧
    ((SceneGraph.new true).update_light_bind_group).light_bind_group_layout =
      some (LightUniform.get_bind_group_layout 0 true) ∧
    ((SceneGraph.new true).update_light_bind_group).light_bind_group =
      some { light_buffer := [] } := by
  have hl : (SceneGraph.new true).get_light_nodes = [] := by
    simp [SceneGraph.get_light_nodes, SceneGraph.lightNodeItems, runLight,
      SceneGraph.new, GroupNode.new, NodeData.new]
  refine ⟨hl, ?_, ?_⟩ <;>
    simp [SceneGraph.update_light_bind_group, SceneGraph.update_light_bind_group_layout,
      SceneGraph.get_light_uniforms, SceneGraph.get_light_nodes,
      SceneGraph.lightNodeItems, runLight, SceneGraph.new, GroupNode.new, NodeData.new]

/-! ## Claim C3: `add_child` -/

theorem modifyChild_get_self (cs : List Node) (i : ℕ) (g : Node → Node) (c : Node)
    (h : cs[i]? = some c) : (modifyChild cs i g)[i]? = some (g c) := by
  induction cs generalizing i with
  | nil => simp at h
  | cons x cs ih =>
    cases i with
    | zero =>
      simp at h
      simp [modifyChild, h]
    | succ i =>
      simp at h
      simpa [modifyChild] using ih i h

theorem modifyChild_id (cs : List Node) (i : ℕ) (g : Node → Node) (c : Node)
    (h : cs[i]? = some c) (hg : g c = c) : modifyChild cs i g = cs := by
  induction cs generalizing i with
  | nil => simp at h
  | cons x cs ih =>
    cases i with
    | zero =>
      simp at h
      simp [modifyChild, h, hg]
    | succ i =>
      simp at h
      simp [modifyChild, ih i h]

theorem nodeAtPath_updateAtPath (t : Node) (p : List ℕ) (f : Node → Node) (n : Node)
    (h : nodeAtPath t p = some n) :
    nodeAtPath (updateAtPath t p f) p = some (f n) := by
  induction p generalizing t with
  | nil =>
    simp [nodeAtPath] at h
    simp [nodeAtPath, updateAtPath, h]
  | cons i p ih =>
    cases t with
    | GroupNode d cs =>
      simp only [nodeAtPath] at h
      cases hc : cs[i]? with
      | none => simp [hc] at h
      | some c =>
        rw [hc] at h
        simp only [updateAtPath, nodeAtPath, modifyChild_get_self cs i _ c hc]
        exact ih c h
    | RenderNode r => simp [nodeAtPath] at h
    | LightNode l => simp [nodeAtPath] at h

theorem updateAtPath_id (t : Node) (p : List ℕ) (f : Node → Node) (n : Node)
    (h : nodeAtPath t p = some n) (hf : f n = n) : updateAtPath t p f = t := by
  induction p generalizing t with
  | nil =>
    simp [nodeAtPath] at h
    simp [updateAtPath, h, hf]
  | cons i p ih =>
    cases t with
    | GroupNode d cs =>
      simp only [nodeAtPath] at h
      cases hc : cs[i]? with
      | none => simp [hc] at h
      | some c =>
        rw [hc] at h
        simp only [updateAtPath]
        rw [modifyChild_id cs i _ c hc (ih c h)]
    | RenderNode r => simp [nodeAtPath] at h
    | LightNode l => simp [nodeAtPath] at h

/-- C3 (amended): `add_child(None, node)` appends the node as the last child
of the root; `add_child(Some(name), node)` appends it as the last child of
the group the mutable deep search resolves the name to; the call panics
(`none`) when no node with that name exists; but when the found node is
*not* a `GroupNode` the call does NOT fail — it returns normally, silently
discarding the node and leaving the graph unchanged. -/
theorem add_child_spec (g : SceneGraph) (child : Node) :
    (∀ d cs, g.root = .GroupNode d cs →
      g.add_child none child = some { g with root := .GroupNode d (cs ++ [child]) }) ∧
    (∀ nm p d cs, g.find_child_mut (some nm) = some p →
      nodeAtPath g.root p = some (.GroupNode d cs) →
      g.add_child (some nm) child =
        some { g with root := updateAtPath g.root p (appendChild child) } ∧
      nodeAtPath (updateAtPath g.root p (appendChild child)) p =
        some (.GroupNode d (cs ++ [child]))) ∧
    (∀ nm, g.find_child_mut (some nm) = none → g.add_child (some nm) child = none) ∧
    (∀ nm p n, g.find_child_mut (some nm) = some p →
      nodeAtPath g.root p = some n → n.isGroup = false →
      g.add_child (some nm) child = some g) := by
  refine ⟨?_, ?_, ?_, ?_⟩
  · intro d cs h
    simp [SceneGraph.add_child, SceneGraph.find_child_mut, updateAtPath, h, appendChild]
  · intro nm p d cs hfind hat
    constructor
    · simp [SceneGraph.add_child, SceneGraph.find_child_mut] at hfind ⊢
      simp [hfind]
    · have := nodeAtPath_updateAtPath g.root p (appendChild child) _ hat
      simpa [appendChild] using this
  · intro nm hfind
    simp [SceneGraph.add_child, SceneGraph.find_child_mut] at hfind ⊢
    simp [hfind]
  · intro nm p n hfind hat hng
    have hid : appendChild child n = n := by
      cases n with
      | GroupNode d cs => simp [Node.isGroup] at hng
      | RenderNode r => simp [appendChild]
      | LightNode l => simp [appendChild]
    simp [SceneGraph.add_child, SceneGraph.find_child_mut] at hfind ⊢
    simp [hfind, updateAtPath_id g.root p _ n hat hid]
  
/-- C3 counterexample: resolving the parent name to a node that is not a
`GroupNode` does not fail. On a graph whose root has a single `RenderNode`
child named `"x"`, `add_child(Some("x"), node)` returns successfully
(`some`, not the `none` that models a panic) and leaves the graph
unchanged, contradicting the claim that the call fails in this case. -/
theorem add_child_nongroup_no_panic :
    ({ SceneGraph.new true with
        root := .GroupNode (NodeData.new "root")
          [.RenderNode (RenderNode.new "x" [] [] none)] } : SceneGraph).add_child
        (some "x") (GroupNode.new "y") =
      some ({ SceneGraph.new true with
        root := .GroupNode (NodeData.new "root")
          [.RenderNode (RenderNode.new "x" [] [] none)] } : SceneGraph) := by
  simp [SceneGraph.add_child, SceneGraph.find_child_mut, SceneGraph.find_child_mut_deep,
    find_child_mut_go, firstMatchIdx, Node.name, RenderNode.new, NodeData.new,
    updateAtPath, modifyChild, appendChild, SceneGraph.new, GroupNode.new]

/-- Witness for `add_child_spec`: appending under the root (`None`) and
under a named child group, on concrete graphs. -/
theorem add_child_spec_witness :
    (SceneGraph.new true).add_child none (GroupNode.new "y") =
      some { SceneGraph.new true with
        root := .GroupNode (NodeData.new "root") [GroupNode.new "y"] } ∧
    ({ SceneGraph.new true with
        root := .GroupNode (NodeData.new "root") [GroupNode.new "g"] } : SceneGraph).add_child
        (some "missing") (GroupNode.new "y") = none :=
  ⟨by
    have h := (add_child_spec (SceneGraph.new true) (GroupNode.new "y")).1
      (NodeData.new "root") [] rfl
    simpa using h,
   (add_child_spec _ (GroupNode.new "y")).2.2.1 "missing" (by
    simp [SceneGraph.find_child_mut, SceneGraph.find_child_mut_deep, find_child_mut_go,
      firstMatchIdx, Node.name, GroupNode.new, NodeData.new, groupFrames])⟩

/-! ## Claim C7: `add_model_node`

`add_model_node` runs `add_child` once per mesh, and each `add_child` call
re-runs the mutable deep search for the parent name. The searches all
resolve to the same group: the search never scans the children of the node
it returns (it returns a node while scanning the *parent's* child list), so
appending children to the found group cannot divert a later search. That
stability argument is formalized here by flattening the search into its
visit order (`mutEntries`) and characterizing the machine as the first
match in that order.
-/

/-- Name and path of each child of a group, in the order the
`find_child_mut_deep` loop scans them. -/
def levelEntries : List Node → List ℕ → ℕ → List (String × List ℕ)
  | [], _, _ => []
  | c :: cs, p, i => (c.name, p ++ [i]) :: levelEntries cs p (i + 1)

mutual
/-- Every (name, path) pair the mutable deep search can inspect below a
node, in visit order: first the node's own child level, then the subtrees
of its group children, later children first. The search result is the first
name match in this list. -/
def mutEntries : Node → List ℕ → List (String × List ℕ)
  | .GroupNode _ cs, p => levelEntries cs p 0 ++ mutEntriesChildren cs p 0
  | _, _ => []
termination_by n _ => 3 * n.size
decreasing_by
  simp [Node.size]; omega
/-- Entries below a child list (children's own level entries excluded at
this level — they are in `levelEntries`), later children first. -/
def mutEntriesChildren : List Node → List ℕ → ℕ → List (String × List ℕ)
  | [], _, _ => []
  | c :: cs, p, i => mutEntriesChildren cs p (i + 1) ++ childEntries p i c
termination_by cs _ _ => 3 * Node.sizeList cs + 2
decreasing_by
  · have := Node.size_pos c; simp [Node.sizeList]; omega
  · have := Node.size_pos c; simp [Node.sizeList]; omega
/-- Entries contributed by one child: a group child opens its whole subtree,
a leaf child contributes nothing beyond its level entry. -/
def childEntries : List ℕ → ℕ → Node → List (String × List ℕ)
  | p, i, .GroupNode d cs => mutEntries (.GroupNode d cs) (p ++ [i])
  | _, _, _ => []
termination_by _ _ n => 3 * n.size + 1
decreasing_by
  simp [Node.size]
end

/-- Entries of a whole machine stack. -/
def stackMutEntries : List (Node × List ℕ) → List (String × List ℕ)
  | [] => []
  | f :: s => mutEntries f.1 f.2 ++ stackMutEntries s

theorem stackMutEntries_append (s t : List (Node × List ℕ)) :
    stackMutEntries (s ++ t) = stackMutEntries s ++ stackMutEntries t := by
  induction s with
  | nil => rfl
  | cons f s ih => simp [stackMutEntries, ih]

theorem stackMutEntries_groupFrames (cs : List Node) (p : List ℕ) (i : ℕ) :
    stackMutEntries ((groupFrames cs p i).reverse) = mutEntriesChildren cs p i := by
  induction cs generalizing i with
  | nil => simp [groupFrames, stackMutEntries, mutEntriesChildren]
  | cons c cs ih =>
    cases c with
    | GroupNode d gcs =>
      simp [groupFrames, stackMutEntries_append, stackMutEntries, ih,
        mutEntriesChildren, childEntries]
    | RenderNode r =>
      simp [groupFrames, ih, mutEntriesChildren, childEntries]
    | LightNode l =>
      simp [groupFrames, ih, mutEntriesChildren, childEntries]

theorem firstMatchIdx_some_find? (cs : List Node) (name : String) (p : List ℕ) :
    ∀ (i j : ℕ), firstMatchIdx cs name i = some j →
      (levelEntries cs p i).find? (fun e => e.1 == name) = some (name, p ++ [j]) := by
  induction cs with
  | nil => intro i j h; simp [firstMatchIdx] at h
  | cons c cs ih =>
    intro i j h
    by_cases hc : c.name = name
    · simp [firstMatchIdx, hc] at h
      subst h
      simp [levelEntries, List.find?_cons_of_pos, hc]
    · rw [firstMatchIdx, if_neg hc] at h
      rw [levelEntries, List.find?_cons_of_neg _ (by simp [hc])]
      exact ih (i + 1) j h

theorem firstMatchIdx_none_find? (cs : List Node) (name : String) (p : List ℕ) :
    ∀ i : ℕ, firstMatchIdx cs name i = none →
      (levelEntries cs p i).find? (fun e => e.1 == name) = none := by
  induction cs with
  | nil => intro i h; simp [levelEntries]
  | cons c cs ih =>
    intro i h
    by_cases hc : c.name = name
    · simp [firstMatchIdx, hc] at h
    · rw [firstMatchIdx, if_neg hc] at h
      rw [levelEntries, List.find?_cons_of_neg _ (by simp [hc])]
      exact ih (i + 1) h

/-- The mutable deep-search machine returns exactly the path of the first
name match in the flattened visit order. -/
theorem find_child_mut_go_eq (s : List (Node × List ℕ)) (name : String) :
    find_child_mut_go s name =
      ((stackMutEntries s).find? (fun e => e.1 == name)).map Prod.snd := by
  induction s, name using find_child_mut_go.induct with
  | case1 x => simp [find_child_mut_go, stackMutEntries]
  | case2 p0 stack name d cs i hm =>
    have hfind := firstMatchIdx_some_find? cs name p0 0 i hm
    simp only [find_child_mut_go, hm, stackMutEntries, mutEntries, List.append_assoc,
      List.find?_append, hfind]
    simp
  | case3 p0 stack name d cs hm ih =>
    have hfind := firstMatchIdx_none_find? cs name p0 0 hm
    rw [find_child_mut_go]
    simp only [hm]
    rw [ih, stackMutEntries_append, stackMutEntries_groupFrames]
    simp only [stackMutEntries, mutEntries, List.append_assoc, List.find?_append, hfind]
    simp
  | case4 n p0 stack name hn ih =>
    cases n with
    | GroupNode d cs => exact (hn d cs rfl).elim
    | RenderNode r =>
      simp only [find_child_mut_go, ih, stackMutEntries, mutEntries]
      simp
    | LightNode l =>
      simp only [find_child_mut_go, ih, stackMutEntries, mutEntries]
      simp

theorem levelEntries_shape (cs : List Node) (p : List ℕ) :
    ∀ (i : ℕ) (e : String × List ℕ), e ∈ levelEntries cs p i →
      ∃ j, i ≤ j ∧ j < i + cs.length ∧ e.2 = p ++ [j] := by
  induction cs with
  | nil => intro i e h; simp [levelEntries] at h
  | cons c cs ih =>
    intro i e h
    rw [levelEntries] at h
    rcases List.mem_cons.mp h with h | h
    · exact ⟨i, le_rfl, by simp, by rw [h]⟩
    · obtain ⟨j, hij, hjl, hej⟩ := ih (i + 1) e h
      exact ⟨j, by omega, by simp at hjl ⊢; omega, hej⟩

theorem mutEntries_shape_all :
    (∀ t : Node, ∀ (p : List ℕ) (e : String × List ℕ), e ∈ mutEntries t p →
      ∃ j q, e.2 = p ++ j :: q) ∧
    (∀ cs : List Node, ∀ (p : List ℕ) (i : ℕ) (e : String × List ℕ),
      e ∈ mutEntriesChildren cs p i →
      ∃ j q, i ≤ j ∧ j < i + cs.length ∧ e.2 = p ++ j :: q) := by
  refine Node.myInduction ?_ ?_ ?_ ?_ ?_
  · intro d cs ih p e h
    rw [mutEntries, List.mem_append] at h
    rcases h with h | h
    · obtain ⟨j, _, _, hej⟩ := levelEntries_shape cs p 0 e h
      exact ⟨j, [], hej⟩
    · obtain ⟨j, q, _, _, hej⟩ := ih p 0 e h
      exact ⟨j, q, hej⟩
  · intro r p e h
    simp [mutEntries] at h
  · intro l p e h
    simp [mutEntries] at h
  · intro p i e h
    simp [mutEntriesChildren] at h
  · intro c cs ihc ihl p i e h
    rw [mutEntriesChildren, List.mem_append] at h
    rcases h with h | h
    · obtain ⟨j, q, hij, hjl, hej⟩ := ihl p (i + 1) e h
      exact ⟨j, q, by omega, by simp at hjl ⊢; omega, hej⟩
    · cases c with
      | GroupNode d gcs =>
        rw [childEntries] at h
        obtain ⟨j, q, hej⟩ := ihc (p ++ [i]) e h
        exact ⟨i, j :: q, le_rfl, by simp, by simp [hej]⟩
      | RenderNode r => simp [childEntries] at h
      | LightNode l => simp [childEntries] at h

theorem levelEntries_modifyChild (cs : List Node) (g : Node → Node)
    (hg : ∀ n, (g n).name = n.name) :
    ∀ (i : ℕ) (p : List ℕ) (k : ℕ),
      levelEntries (modifyChild cs i g) p k = levelEntries cs p k := by
  induction cs with
  | nil => intro i p k; simp [modifyChild]
  | cons x cs ih =>
    intro i p k
    cases i with
    | zero => simp [modifyChild, levelEntries, hg x]
    | succ i => simp [modifyChild, levelEntries, ih i p (k + 1)]

theorem mutEntriesChildren_decomp (cs : List Node) (g : Node → Node) :
    ∀ (i : ℕ) (c : Node) (p : List ℕ) (k : ℕ), cs[i]? = some c →
    ∃ A B, mutEntriesChildren cs p k = A ++ (childEntries p (i + k) c ++ B) ∧
      mutEntriesChildren (modifyChild cs i g) p k =
        A ++ (childEntries p (i + k) (g c) ++ B) ∧
      (∀ e ∈ A, ∃ j q, e.2 = p ++ j :: q ∧ j ≠ i + k) ∧
      (∀ e ∈ B, ∃ j q, e.2 = p ++ j :: q ∧ j ≠ i + k) := by
  induction cs with
  | nil => intro i c p k h; simp at h
  | cons x cs ih =>
    intro i c p k h
    cases i with
    | zero =>
      simp only [List.getElem?_cons_zero, Option.some.injEq] at h
      subst h
      refine ⟨mutEntriesChildren cs p (k + 1), [], ?_, ?_, ?_, ?_⟩
      · simp [mutEntriesChildren]
      · simp [modifyChild, mutEntriesChildren]
      · intro e he
        obtain ⟨j, q, hij, _, hej⟩ := mutEntries_shape_all.2 cs p (k + 1) e he
        exact ⟨j, q, hej, by omega⟩
      · intro e he
        simp at he
    | succ i =>
      simp only [List.getElem?_cons_succ] at h
      obtain ⟨A, B, h1, h2, hA, hB⟩ := ih i c p (k + 1) h
      refine ⟨A, B ++ childEntries p k x, ?_, ?_, ?_, ?_⟩
      · rw [mutEntriesChildren, h1]
        have : i + (k + 1) = i + 1 + k := by omega
        rw [this]
        simp [List.append_assoc]
      · rw [show modifyChild (x :: cs) (i + 1) g = x :: modifyChild cs i g from rfl,
          mutEntriesChildren, h2]
        have : i + (k + 1) = i + 1 + k := by omega
        rw [this]
        simp [List.append_assoc]
      · intro e he
        obtain ⟨j, q, hej, hne⟩ := hA e he
        exact ⟨j, q, hej, by omega⟩
      · intro e he
        rcases List.mem_append.mp he with he | he
        · obtain ⟨j, q, hej, hne⟩ := hB e he
          exact ⟨j, q, hej, by omega⟩
        · cases x with
          | GroupNode dx xcs =>
            rw [childEntries] at he
            obtain ⟨j, q, hej⟩ := mutEntries_shape_all.1 _ (p ++ [k]) e he
            exact ⟨k, j :: q, by simp [hej], by omega⟩
          | RenderNode r => simp [childEntries] at he
          | LightNode l => simp [childEntries] at he

theorem updateAtPath_name (f : Node → Node) (hf : ∀ n, (f n).name = n.name)
    (path : List ℕ) (c : Node) : (updateAtPath c path f).name = c.name := by
  cases path with
  | nil => cases c <;> simp [updateAtPath, hf]
  | cons i p => cases c <;> simp [updateAtPath, Node.name]

theorem updateAtPath_isGroup (f : Node → Node) (hf : ∀ n, (f n).isGroup = n.isGroup)
    (path : List ℕ) (c : Node) : (updateAtPath c path f).isGroup = c.isGroup := by
  cases path with
  | nil => cases c <;> simp [updateAtPath, hf]
  | cons i p => cases c <;> simp [updateAtPath, Node.isGroup]

/-- Core stability property: applying a name- and kind-preserving update at
the path the mutable deep search found does not change what the search
finds — the first name match in the visit order is still the same entry,
because every entry inspected up to and including it is unchanged. -/
theorem mutEntries_find_stable (path : List ℕ) :
    ∀ (t : Node) (base : List ℕ) (name : String) (f : Node → Node),
      (∀ n, (f n).name = n.name) → (∀ n, (f n).isGroup = n.isGroup) →
      (mutEntries t base).find? (fun e => e.1 == name) = some (name, base ++ path) →
      (mutEntries (updateAtPath t path f) base).find? (fun e => e.1 == name) =
        some (name, base ++ path) := by
  induction path with
  | nil =>
    intro t base name f hf1 hf2 h
    exfalso
    obtain ⟨j, q, hq⟩ := mutEntries_shape_all.1 t base _ (List.mem_of_find?_eq_some h)
    simp only [List.append_nil] at hq
    have hlen := congrArg List.length hq
    simp at hlen
  | cons i rest ih =>
    intro t base name f hf1 hf2 h
    cases t with
    | RenderNode r => simp [mutEntries] at h
    | LightNode l => simp [mutEntries] at h
    | GroupNode d cs =>
      have hgname : ∀ n, ((fun c => updateAtPath c rest f) n).name = n.name :=
        fun n => updateAtPath_name f hf1 rest n
      have hgkind : ∀ n, ((fun c => updateAtPath c rest f) n).isGroup = n.isGroup :=
        fun n => updateAtPath_isGroup f hf2 rest n
      rw [mutEntries, List.find?_append] at h
      rw [show updateAtPath (Node.GroupNode d cs) (i :: rest) f =
        Node.GroupNode d (modifyChild cs i (fun c => updateAtPath c rest f)) from rfl,
        mutEntries, List.find?_append, levelEntries_modifyChild cs _ hgname]
      cases hl : (levelEntries cs base 0).find? (fun e => e.1 == name) with
      | some e =>
        rw [hl] at h
        have he : e = (name, base ++ i :: rest) := by
          have h' : some e = some (name, base ++ i :: rest) := h
          exact Option.some.inj h'
        subst he
        obtain ⟨j, _, _, hej⟩ :=
          levelEntries_shape cs base 0 _ (List.mem_of_find?_eq_some hl)
        simp only at hej
        obtain ⟨rfl, rfl⟩ : i = j ∧ rest = [] := by
          simpa using List.append_cancel_left hej
        rfl
      | none =>
        rw [hl] at h
        simp only [Option.none_or] at h
        simp only [Option.none_or]
        obtain ⟨j, q, hj0, hjlen, hej⟩ :=
          mutEntries_shape_all.2 cs base 0 _ (List.mem_of_find?_eq_some h)
        simp only at hej
        obtain ⟨rfl, rfl⟩ : i = j ∧ rest = q := by
          simpa using List.append_cancel_left hej
        have hilen : i < cs.length := by omega
        obtain ⟨c, hc⟩ : ∃ c, cs[i]? = some c :=
          ⟨cs[i], List.getElem?_eq_getElem hilen⟩
        obtain ⟨A, B, h1, h2, hA, hB⟩ :=
          mutEntriesChildren_decomp cs (fun c => updateAtPath c rest f) i c base 0 hc
        rw [h1, List.find?_append] at h
        rw [h2, List.find?_append]
        cases hAf : A.find? (fun e => e.1 == name) with
        | some a =>
          exfalso
          rw [hAf] at h
          have ha : a = (name, base ++ i :: rest) := by
            have h' : some a = some (name, base ++ i :: rest) := h
            exact Option.some.inj h'
          subst ha
          obtain ⟨j', q', hej', hne'⟩ := hA _ (List.mem_of_find?_eq_some hAf)
          simp only at hej'
          obtain ⟨rfl, -⟩ : i = j' ∧ rest = q' := by
            simpa using List.append_cancel_left hej'
          omega
        | none =>
          rw [hAf] at h
          simp only [Option.none_or] at h
          rw [List.find?_append] at h
          simp only [Option.none_or, List.find?_append]
          cases hCE : (childEntries base (i + 0) c).find? (fun e => e.1 == name) with
          | none =>
            exfalso
            rw [hCE] at h
            simp only [Option.none_or] at h
            obtain ⟨j', q', hej', hne'⟩ := hB _ (List.mem_of_find?_eq_some h)
            simp only at hej'
            obtain ⟨rfl, -⟩ : i = j' ∧ rest = q' := by
              simpa using List.append_cancel_left hej'
            omega
          | some e' =>
            rw [hCE] at h
            have he' : e' = (name, base ++ i :: rest) := by
              have h' : some e' = some (name, base ++ i :: rest) := h
              exact Option.some.inj h'
            subst he'
            cases c with
            | RenderNode r => simp [childEntries] at hCE
            | LightNode l => simp [childEntries] at hCE
            | GroupNode dc gcs =>
              rw [childEntries] at hCE
              have hpath : base ++ i :: rest = (base ++ [i + 0]) ++ rest := by simp
              have hstep := ih (Node.GroupNode dc gcs) (base ++ [i + 0]) name f hf1 hf2
                (by rw [← hpath]; exact hCE)
              have hgc : (updateAtPath (Node.GroupNode dc gcs) rest f).isGroup = true := by
                rw [updateAtPath_isGroup f hf2, Node.isGroup]
              cases hgceq : updateAtPath (Node.GroupNode dc gcs) rest f with
              | RenderNode r => rw [hgceq] at hgc; simp [Node.isGroup] at hgc
              | LightNode l => rw [hgceq] at hgc; simp [Node.isGroup] at hgc
              | GroupNode dg gcs' =>
                simp only [childEntries]
                rw [← hgceq, hstep, ← hpath]
                rfl

theorem appendChild_name (c n : Node) : (appendChild c n).name = n.name := by
  cases n <;> simp [appendChild, Node.name]

theorem appendChild_isGroup (c n : Node) : (appendChild c n).isGroup = n.isGroup := by
  cases n <;> simp [appendChild, Node.isGroup]

/-- Appending a child at the node the mutable deep search found does not
change the search result. -/
theorem find_child_mut_deep_stable (t : Node) (name : String) (p : List ℕ)
    (f : Node → Node) (hf1 : ∀ n, (f n).name = n.name)
    (hf2 : ∀ n, (f n).isGroup = n.isGroup)
    (h : find_child_mut_go [(t, [])] name = some p) :
    find_child_mut_go [(updateAtPath t p f, [])] name = some p := by
  rw [find_child_mut_go_eq] at h ⊢
  simp only [stackMutEntries, List.append_nil] at h ⊢
  cases he : (mutEntries t []).find? (fun e => e.1 == name) with
  | none => rw [he] at h; simp at h
  | some e =>
    rw [he] at h
    have hp : e.2 = p := by simpa using h
    have hname : e.1 = name := by simpa using List.find?_some he
    have hpair : e = (name, [] ++ p) := by
      obtain ⟨e1, e2⟩ := e
      simp_all
    rw [hpair] at he
    have hst := mutEntries_find_stable p t [] name f hf1 hf2 he
    rw [hst]
    simp

/-- `add_child` at a resolved parent succeeds, rewrites exactly the found
node, and leaves the parent resolution unchanged. -/
theorem add_child_preserves_find (g : SceneGraph) (parent : Option String)
    (p : List ℕ) (child : Node) (h : g.find_child_mut parent = some p) :
    g.add_child parent child =
      some { g with root := updateAtPath g.root p (appendChild child) } ∧
    ({ g with root := updateAtPath g.root p (appendChild child) } :
      SceneGraph).find_child_mut parent = some p := by
  constructor
  · simp [SceneGraph.add_child, h]
  · cases parent with
    | none =>
      have hp : p = [] := by
        simp [SceneGraph.find_child_mut] at h
        exact h
      simp [SceneGraph.find_child_mut, hp]
    | some nm =>
      simp only [SceneGraph.find_child_mut, SceneGraph.find_child_mut_deep] at h ⊢
      exact find_child_mut_deep_stable g.root nm p (appendChild child)
        (appendChild_name child) (appendChild_isGroup child) h

theorem filterMap_length_all_some {α β : Type} (l : List α) (f : α → Option β)
    (h : ∀ a ∈ l, (f a).isSome) : (l.filterMap f).length = l.length := by
  induction l with
  | nil => simp
  | cons a l ih =>
    have ha := h a (by simp)
    cases hfa : f a with
    | none => rw [hfa] at ha; simp at ha
    | some b =>
      rw [List.filterMap_cons, hfa]
      simp only [List.length_cons]
      rw [ih (fun a ha => h a (by simp [ha]))]

theorem add_model_fold (meshes : List Mesh) :
    ∀ (g : SceneGraph) (parent : Option String) (name : String)
      (materials : List Material) (matrix : Mat4) (p : List ℕ) (d : NodeData)
      (cs : List Node),
      g.find_child_mut parent = some p →
      nodeAtPath g.root p = some (.GroupNode d cs) →
      (∀ mesh ∈ meshes, mesh.material < materials.length) →
      ∃ g', meshes.foldl
          (fun acc mesh => acc.bind (fun g =>
            (meshRenderNode name materials matrix mesh).bind (fun child =>
              g.add_child parent child))) (some g) = some g' ∧
        nodeAtPath g'.root p = some (.GroupNode d
          (cs ++ meshes.filterMap (meshRenderNode name materials matrix))) ∧
        g'.find_child_mut parent = some p := by
  induction meshes with
  | nil =>
    intro g parent name materials matrix p d cs h hat hmat
    exact ⟨g, by simp, by simp [hat], h⟩
  | cons mesh meshes ih =>
    intro g parent name materials matrix p d cs h hat hmat
    have hmlen : mesh.material < materials.length := hmat mesh (by simp)
    obtain ⟨mat, hmat0⟩ : ∃ m, materials[mesh.material]? = some m :=
      ⟨materials[mesh.material], List.getElem?_eq_getElem hmlen⟩
    have hms : meshRenderNode name materials matrix mesh =
        some (Node.RenderNode (RenderNode.new_with_matrix (name ++ "-" ++ mesh.name)
          mesh.vertices mesh.indices mat.create_bind_group matrix)) := by
      simp [meshRenderNode, hmat0]
    obtain ⟨hadd, hfind1⟩ := add_child_preserves_find g parent p
      (Node.RenderNode (RenderNode.new_with_matrix (name ++ "-" ++ mesh.name)
        mesh.vertices mesh.indices mat.create_bind_group matrix)) h
    have hat1 : nodeAtPath
        ({ g with root := updateAtPath g.root p (appendChild
          (Node.RenderNode (RenderNode.new_with_matrix (name ++ "-" ++ mesh.name)
            mesh.vertices mesh.indices mat.create_bind_group matrix))) } :
          SceneGraph).root p =
        some (.GroupNode d (cs ++ [Node.RenderNode (RenderNode.new_with_matrix
          (name ++ "-" ++ mesh.name) mesh.vertices mesh.indices
          mat.create_bind_group matrix)])) := by
      have := nodeAtPath_updateAtPath g.root p (appendChild
        (Node.RenderNode (RenderNode.new_with_matrix (name ++ "-" ++ mesh.name)
          mesh.vertices mesh.indices mat.create_bind_group matrix))) _ hat
      simpa [appendChild] using this
    obtain ⟨g', hg1, hg2, hg3⟩ := ih _ parent name materials matrix p d _ hfind1 hat1
      (fun m hm => hmat m (by simp [hm]))
    refine ⟨g', ?_, ?_, hg3⟩
    · rw [List.foldl_cons]
      have hstep : (some g).bind (fun g =>
          (meshRenderNode name materials matrix mesh).bind (fun child =>
            g.add_child parent child)) =
          some { g with root := updateAtPath g.root p (appendChild
            (Node.RenderNode (RenderNode.new_with_matrix (name ++ "-" ++ mesh.name)
              mesh.vertices mesh.indices mat.create_bind_group matrix))) } := by
        simp [hms, hadd]
      rw [hstep]
      exact hg1
    · rw [hg2, List.filterMap_cons, hms]
      simp

/-- C7: for a model with meshes `m1 … mk` (each one's material index in
bounds) and a parent that resolves to a group, `add_model_node` succeeds and
appends exactly `k` `RenderNode`s to that group's children — one per mesh,
in mesh order, each named `name ++ "-" ++ mesh.name`, each carrying that
mesh's vertices and indices with the given matrix applied, and each holding
the bind group of the mesh's material (see `meshRenderNode`). -/
theorem add_model_node_spec (g : SceneGraph) (parent : Option String) (name : String)
    (model : Model) (matrix : Mat4) (p : List ℕ) (d : NodeData) (cs : List Node)
    (hfind : g.find_child_mut parent = some p)
    (hat : nodeAtPath g.root p = some (.GroupNode d cs))
    (hmat : ∀ mesh ∈ model.meshes, mesh.material < model.materials.length) :
    ∃ g', g.add_model_node parent name model matrix = some g' ∧
      nodeAtPath g'.root p = some (.GroupNode d
        (cs ++ model.meshes.filterMap (meshRenderNode name model.materials matrix))) ∧
      (model.meshes.filterMap (meshRenderNode name model.materials matrix)).length =
        model.meshes.length := by
  obtain ⟨g', h1, h2, h3⟩ :=
    add_model_fold model.meshes g parent name model.materials matrix p d cs hfind hat hmat
  refine ⟨g', h1, h2, ?_⟩
  refine filterMap_length_all_some _ _ ?_
  intro mesh hm
  have hmlen := hmat mesh hm
  obtain ⟨m, hm0⟩ : ∃ m, model.materials[mesh.material]? = some m :=
    ⟨model.materials[mesh.material], List.getElem?_eq_getElem hmlen⟩
  simp [meshRenderNode, hm0]

/-- A one-mesh, one-material model used to witness `add_model_node_spec`. -/
def witnessModel : Model :=
  { meshes := [{ name := "mesh", vertices := [], indices := [], num_elements := 0,
                 material := 0 }]
    materials := [{ name := "mat", diffuse_texture := none,
                    material := { name := "mat", ambient := none, diffuse := none,
                                  specular := none, shininess := none,
                                  dissolve := none } }] }

/-- Witness for `add_model_node_spec`: one mesh added under the root of a
fresh graph. -/
theorem add_model_node_spec_witness :
    ∃ g', (SceneGraph.new true).add_model_node none "m" witnessModel
        Mat4.IDENTITY = some g' ∧
      nodeAtPath g'.root [] = some (.GroupNode (NodeData.new "root")
        ([] ++ witnessModel.meshes.filterMap
          (meshRenderNode "m" witnessModel.materials Mat4.IDENTITY))) ∧
      (witnessModel.meshes.filterMap
        (meshRenderNode "m" witnessModel.materials Mat4.IDENTITY)).length =
        witnessModel.meshes.length :=
  add_model_node_spec (SceneGraph.new true) none "m" witnessModel Mat4.IDENTITY
    [] (NodeData.new "root") [] rfl rfl
    (by intro mesh hm; simp [witnessModel] at hm; simp [hm, witnessModel])
